/-
Verification of the tensor-calculus core of the ssz-metric-pure repository.

Shallow embedding over exact real arithmetic (ℝ): each Python function of the
repository that the claims touch is translated into a Lean definition with the
same name, and the claims are settled as theorems about those definitions.
numpy linear-algebra routines (np.linalg.inv / np.linalg.pinv) are external
library calls; np.linalg.inv is modelled exactly (it raises LinAlgError iff the
matrix is singular), np.linalg.pinv is kept as an explicit function parameter.
-/
import Mathlib

noncomputable section

/-- Speed of light in SI units, `C_SI = 299792458.0` (shared by all modules). -/
def C_SI : ℝ := 299792458

/-- Newton constant in SI units, `G_SI = 6.67430e-11` (shared by all modules). -/
def G_SI : ℝ := 6.67430e-11

namespace EinsteinRicci4D

/-! Embedding of `src/ssz_metric_pure/einstein_ricci_4d.py` (class
`SSZEinsteinRicci4D`, parameterised by the central mass). -/

/-- Schwarzschild radius `r_g = 2*G_SI*mass/C_SI**2` (constructor of
`SSZEinsteinRicci4D`). -/
def r_g (mass : ℝ) : ℝ := 2 * G_SI * mass / C_SI ^ 2

/-- Calibrated spiral angle `phi_G(r) = sqrt(r_g / r)`. -/
def phi_G (mass r : ℝ) : ℝ := Real.sqrt (r_g mass / r)

/-- `gamma(r) = cosh(phi_G(r))`. -/
def gamma (mass r : ℝ) : ℝ := Real.cosh (phi_G mass r)

/-- `beta(r) = tanh(phi_G(r))`. -/
def beta (mass r : ℝ) : ℝ := Real.tanh (phi_G mass r)

/-- `phi_prime(r) = -0.5*sqrt(r_g/r**3)`. -/
def phi_prime (mass r : ℝ) : ℝ := -(1/2) * Real.sqrt (r_g mass / r ^ 3)

/-- `phi_double_prime(r) = 0.75*sqrt(r_g/r**5)`. -/
def phi_double_prime (mass r : ℝ) : ℝ := (3/4) * Real.sqrt (r_g mass / r ^ 5)

/-- `lambda_prime(r) = beta(r)*phi_prime(r)`. -/
def lambda_prime (mass r : ℝ) : ℝ := beta mass r * phi_prime mass r

/-- `lambda_double_prime(r) = (phi')**2/gamma**2 + beta*phi''`. -/
def lambda_double_prime (mass r : ℝ) : ℝ :=
  phi_prime mass r ^ 2 / gamma mass r ^ 2 + beta mass r * phi_double_prime mass r

/-- Result dictionary of `einstein_tensor` (keys `G_T_T`, `G_r_r`,
`G_theta_theta`, `G_phi_phi`). -/
structure EinsteinTensor where
  G_T_T : ℝ
  G_r_r : ℝ
  G_theta_theta : ℝ
  G_phi_phi : ℝ

/-- `einstein_tensor(r)`: the mixed-index Einstein tensor components, exactly
as assembled in the source (lines 91-132 of `einstein_ricci_4d.py`). -/
def einstein_tensor (mass r : ℝ) : EinsteinTensor :=
  let gamma := gamma mass r
  let beta := beta mass r
  let phi_p := phi_prime mass r
  let lambda_p := lambda_prime mass r
  let lambda_pp := lambda_double_prime mass r
  let G_T_T := (1 / r ^ 2) * ((2 * r * beta * phi_p) / gamma ^ 2 - 1 / gamma ^ 2 + 1)
  let G_r_r := (1 / r ^ 2) * (1 / gamma ^ 2 - 1) - (2 * beta * phi_p) / (r * gamma ^ 2)
  let G_theta_theta :=
    (1 / gamma ^ 2) * (-lambda_pp + 2 * lambda_p ^ 2 - (2 * lambda_p) / r)
  { G_T_T := G_T_T, G_r_r := G_r_r, G_theta_theta := G_theta_theta,
    G_phi_phi := G_theta_theta }

/-- `ricci_scalar(r)`: Ricci scalar from the trace of the Einstein tensor,
`R = -(G_T_T + G_r_r + 2*G_theta_theta)`. -/
def ricci_scalar (mass r : ℝ) : ℝ :=
  let G := einstein_tensor mass r;
  -(G.G_T_T + G.G_r_r + 2 * G.G_theta_theta)

/-- `ricci_scalar_direct(r)`: closed-form Ricci scalar
`R = (2/gamma**2)*(lambda'' - 2*lambda'**2 + 2*lambda'/r)`. -/
def ricci_scalar_direct (mass r : ℝ) : ℝ :=
  (2 / gamma mass r ^ 2) *
    (lambda_double_prime mass r - 2 * lambda_prime mass r ^ 2 +
      (2 * lambda_prime mass r) / r)

end EinsteinRicci4D

/-- C1: for every mass M > 0 and radius r > 0, the Ricci scalar computed as the
negated trace of the Einstein tensor (`ricci_scalar`) coincides exactly with
the closed-form expression (`ricci_scalar_direct`), as an identity in exact
real arithmetic. -/
theorem C1_ricci_scalar_trace_eq_direct (M r : ℝ) (hM : 0 < M) (hr : 0 < r) :
    EinsteinRicci4D.ricci_scalar M r = EinsteinRicci4D.ricci_scalar_direct M r := by
  have hγ : EinsteinRicci4D.gamma M r ≠ 0 :=
    ne_of_gt (Real.cosh_pos (x := EinsteinRicci4D.phi_G M r))
  have hr0 : r ≠ 0 := ne_of_gt hr
  unfold EinsteinRicci4D.ricci_scalar EinsteinRicci4D.ricci_scalar_direct
    EinsteinRicci4D.einstein_tensor EinsteinRicci4D.lambda_double_prime
    EinsteinRicci4D.lambda_prime
  field_simp
  ring

/-- Witness for C1: the two Ricci-scalar derivations agree at the concrete
input M = 1, r = 1. -/
theorem C1_witness :
    (0:ℝ) < 1 ∧ (0:ℝ) < 1 ∧
      EinsteinRicci4D.ricci_scalar 1 1 = EinsteinRicci4D.ricci_scalar_direct 1 1 :=
  ⟨by norm_num, by norm_num,
    C1_ricci_scalar_trace_eq_direct 1 1 (by norm_num) (by norm_num)⟩

namespace Tensors

/-! Embedding of `src/ssz_metric_pure/tensors.py` (`christoffel_numerical`).

The metric is a function of the four coordinates `(t, r, theta, phi)`,
modelled as `(Fin 4 → ℝ) → Matrix (Fin 4) (Fin 4) ℝ`; perturbing one
coordinate (`coords_plus[nu] += eps`) is `Function.update`.  `np.linalg.inv`
raises `LinAlgError` exactly when the matrix is singular, which over exact
reals means determinant zero; `np.linalg.pinv` (the Moore-Penrose
pseudoinverse, an external numpy routine) is passed in as a function
parameter `pinv`. -/

/-- Centered finite difference `(g(x + eps e_idx)[a,b] - g(x - eps e_idx)[a,b])/(2*eps)`
used for every metric derivative inside `christoffel_numerical`. -/
def dg (g_func : (Fin 4 → ℝ) → Matrix (Fin 4) (Fin 4) ℝ) (coords : Fin 4 → ℝ)
    (eps : ℝ) (idx a b : Fin 4) : ℝ :=
  (g_func (Function.update coords idx (coords idx + eps)) a b -
    g_func (Function.update coords idx (coords idx - eps)) a b) / (2 * eps)

/-- Model of `np.linalg.inv`: raises `LinAlgError` iff the matrix is singular
(the exact-arithmetic criterion for numpy's singularity test). -/
def np_linalg_inv (g : Matrix (Fin 4) (Fin 4) ℝ) :
    Except String (Matrix (Fin 4) (Fin 4) ℝ) :=
  if g.det = 0 then Except.error "LinAlgError: Singular matrix" else Except.ok g⁻¹

/-- The `try: inv / except LinAlgError: warn; pinv` block of
`christoffel_numerical` (tensors.py lines 57-62): the error is caught and the
pseudoinverse is used, so an inverse-like matrix is always produced. -/
def christoffel_g_inv (pinv : Matrix (Fin 4) (Fin 4) ℝ → Matrix (Fin 4) (Fin 4) ℝ)
    (g : Matrix (Fin 4) (Fin 4) ℝ) : Matrix (Fin 4) (Fin 4) ℝ :=
  match np_linalg_inv g with
  | Except.ok g_inv => g_inv
  | Except.error _ => pinv g

/-- Christoffel loop body given an already-computed inverse metric:
`Gamma[mu,nu,rho] = sum_sigma 0.5*g_inv[mu,sigma]*(d_nu g[sigma,rho] + d_rho g[nu,sigma] - d_sigma g[nu,rho])`. -/
def christoffel_with_ginv (g_inv : Matrix (Fin 4) (Fin 4) ℝ)
    (g_func : (Fin 4 → ℝ) → Matrix (Fin 4) (Fin 4) ℝ) (coords : Fin 4 → ℝ)
    (eps : ℝ) : Fin 4 → Fin 4 → Fin 4 → ℝ :=
  fun mu nu rho => ∑ sigma : Fin 4,
    (1/2) * g_inv mu sigma *
      (dg g_func coords eps nu sigma rho + dg g_func coords eps rho nu sigma -
        dg g_func coords eps sigma nu rho)

/-- `christoffel_numerical(g_func, coords, eps=1e-8)`: computes the metric at
the point, inverts it (falling back to the pseudoinverse with a warning when
singular), and assembles the Christoffel array by centered finite differences
with the constant step `eps`. -/
def christoffel_numerical (pinv : Matrix (Fin 4) (Fin 4) ℝ → Matrix (Fin 4) (Fin 4) ℝ)
    (g_func : (Fin 4 → ℝ) → Matrix (Fin 4) (Fin 4) ℝ) (coords : Fin 4 → ℝ)
    (eps : ℝ) : Fin 4 → Fin 4 → Fin 4 → ℝ :=
  christoffel_with_ginv (christoffel_g_inv pinv (g_func coords)) g_func coords eps

/-- Modelled from the spec: the spec's differentiation strategy, a centered
finite difference whose step depends on the coordinate being perturbed as
`h = max(1e-6*|coordinate|, 1e-8)`.  No such step rule exists anywhere in the
source; this definition exists only to be compared against `dg` above. -/
def dg_spec (g_func : (Fin 4 → ℝ) → Matrix (Fin 4) (Fin 4) ℝ) (coords : Fin 4 → ℝ)
    (idx a b : Fin 4) : ℝ :=
  let h := max (1e-6 * |coords idx|) 1e-8
  (g_func (Function.update coords idx (coords idx + h)) a b -
    g_func (Function.update coords idx (coords idx - h)) a b) / (2 * h)

/-- Modelled from the spec: `christoffel_numerical` as the spec describes it,
with the coordinate-dependent step of `dg_spec` in place of the constant
`eps`. -/
def christoffel_spec (pinv : Matrix (Fin 4) (Fin 4) ℝ → Matrix (Fin 4) (Fin 4) ℝ)
    (g_func : (Fin 4 → ℝ) → Matrix (Fin 4) (Fin 4) ℝ) (coords : Fin 4 → ℝ) :
    Fin 4 → Fin 4 → Fin 4 → ℝ :=
  fun mu nu rho => ∑ sigma : Fin 4,
    (1/2) * christoffel_g_inv pinv (g_func coords) mu sigma *
      (dg_spec g_func coords nu sigma rho + dg_spec g_func coords rho nu sigma -
        dg_spec g_func coords sigma nu rho)

end Tensors

namespace Metric4D

/-! Embedding of `src/ssz_metric_pure/metric_tensor_4d.py` (class `SSZMetric4D`).
Coordinate order: 0 = T, 1 = r, 2 = theta, 3 = phi. -/

/-- Schwarzschild radius `r_g = 2*G_SI*mass/C_SI**2`. -/
def r_g (mass : ℝ) : ℝ := 2 * G_SI * mass / C_SI ^ 2

/-- `phi_G(r) = sqrt(r_g/r)`. -/
def phi_G (mass r : ℝ) : ℝ := Real.sqrt (r_g mass / r)

/-- `gamma(r) = cosh(phi_G(r))`. -/
def gamma (mass r : ℝ) : ℝ := Real.cosh (phi_G mass r)

/-- `beta(r) = tanh(phi_G(r))`. -/
def beta (mass r : ℝ) : ℝ := Real.tanh (phi_G mass r)

/-- `phi_prime(r) = -0.5*sqrt(r_g/r**3)`. -/
def phi_prime (mass r : ℝ) : ℝ := -(1/2) * Real.sqrt (r_g mass / r ^ 3)

/-- `metric_tensor(r, theta) = diag(-c^2/gamma^2, gamma^2, r^2, (r*sin(theta))^2)`
(built as `np.zeros((4,4))` with the four diagonal entries assigned). -/
def metric_tensor (mass r theta : ℝ) : Matrix (Fin 4) (Fin 4) ℝ :=
  Matrix.diagonal
    ![-(C_SI ^ 2) / gamma mass r ^ 2, gamma mass r ^ 2, r ^ 2,
      (r * Real.sin theta) ^ 2]

/-- `inverse_metric_tensor(r, theta)`: diagonal inverse, with the `(phi,phi)`
entry guarded — it is `1/(r*sin(theta))^2` when `|sin(theta)| > 1e-10` and `0`
otherwise ("Avoid division by zero at poles"). -/
def inverse_metric_tensor (mass r theta : ℝ) : Matrix (Fin 4) (Fin 4) ℝ :=
  Matrix.diagonal
    ![-(gamma mass r ^ 2) / C_SI ^ 2, 1 / gamma mass r ^ 2, 1 / r ^ 2,
      if 1e-10 < |Real.sin theta| then 1 / (r * Real.sin theta) ^ 2 else 0]

/-- `christoffel_symbols(r, theta)`: the hand-coded dictionary of all
non-vanishing Christoffel symbols, as the association list of its insertion
order; keys are `(rho, mu, nu)` triples. -/
def christoffel_symbols (mass r theta : ℝ) : List ((Fin 4 × Fin 4 × Fin 4) × ℝ) :=
  let gamma := gamma mass r
  let beta := beta mass r
  let phi_p := phi_prime mass r
  let sin_theta := Real.sin theta
  let cos_theta := Real.cos theta
  let cot_theta := if 1e-10 < |sin_theta| then cos_theta / sin_theta else 0
  [((0, 0, 1), -beta * phi_p),
   ((0, 1, 0), -beta * phi_p),
   ((1, 0, 0), -(C_SI ^ 2) * beta * phi_p / gamma ^ 4),
   ((1, 1, 1), beta * phi_p),
   ((1, 2, 2), -r / gamma ^ 2),
   ((1, 3, 3), -r * sin_theta ^ 2 / gamma ^ 2),
   ((2, 1, 2), 1 / r),
   ((2, 2, 1), 1 / r),
   ((2, 3, 3), -sin_theta * cos_theta),
   ((3, 1, 3), 1 / r),
   ((3, 3, 1), 1 / r),
   ((3, 2, 3), cot_theta),
   ((3, 3, 2), cot_theta)]

/-- `christoffel_component(rho, mu, nu, r, theta) = Gamma.get((rho,mu,nu), 0.0)`:
dictionary lookup with default 0. -/
def christoffel_component (mass r theta : ℝ) (rho mu nu : Fin 4) : ℝ :=
  (((christoffel_symbols mass r theta).lookup (rho, mu, nu)).getD 0)

/-- `null_slope(r, outgoing) = ±c/gamma^2`. -/
def null_slope (mass r : ℝ) (outgoing : Bool) : ℝ :=
  let slope := C_SI / gamma mass r ^ 2
  if outgoing then slope else -slope

end Metric4D

namespace Tensors

/-- If the metric function is pointwise symmetric, every centered difference
inherits the symmetry in the two matrix indices. -/
lemma dg_symm (g_func : (Fin 4 → ℝ) → Matrix (Fin 4) (Fin 4) ℝ)
    (hsym : ∀ p a b, g_func p a b = g_func p b a) (coords : Fin 4 → ℝ)
    (eps : ℝ) (idx a b : Fin 4) :
    dg g_func coords eps idx a b = dg g_func coords eps idx b a := by
  unfold dg
  rw [hsym _ a b, hsym _ a b]

end Tensors

/-- C2: for every metric function that is symmetric at every evaluation point
and every coordinate point and step `eps > 0`, the array returned by
`christoffel_numerical` is symmetric in its last two indices; and every stored
entry `(rho, mu, nu)` of the hand-coded `christoffel_symbols` dictionary of
`SSZMetric4D` with `mu ≠ nu` has an equal `(rho, nu, mu)` entry. -/
theorem C2_christoffel_symmetric :
    (∀ (pinv : Matrix (Fin 4) (Fin 4) ℝ → Matrix (Fin 4) (Fin 4) ℝ)
      (g_func : (Fin 4 → ℝ) → Matrix (Fin 4) (Fin 4) ℝ) (coords : Fin 4 → ℝ)
      (eps : ℝ), 0 < eps → (∀ p a b, g_func p a b = g_func p b a) →
      ∀ mu nu rho, Tensors.christoffel_numerical pinv g_func coords eps mu nu rho =
        Tensors.christoffel_numerical pinv g_func coords eps mu rho nu) ∧
    (∀ (mass r theta : ℝ) (k : Fin 4 × Fin 4 × Fin 4) (v : ℝ),
      (k, v) ∈ Metric4D.christoffel_symbols mass r theta → k.2.1 ≠ k.2.2 →
      ((k.1, k.2.2, k.2.1), v) ∈ Metric4D.christoffel_symbols mass r theta) := by
  constructor
  · intro pinv g_func coords eps _ hsym mu nu rho
    unfold Tensors.christoffel_numerical Tensors.christoffel_with_ginv
    apply Finset.sum_congr rfl
    intro sigma _
    rw [Tensors.dg_symm g_func hsym coords eps rho sigma nu,
      Tensors.dg_symm g_func hsym coords eps nu rho sigma,
      Tensors.dg_symm g_func hsym coords eps sigma rho nu]
    ring
  · intro mass r theta k v hmem _
    simp only [Metric4D.christoffel_symbols, List.mem_cons, List.not_mem_nil,
      or_false] at hmem ⊢
    rcases hmem with h | h | h | h | h | h | h | h | h | h | h | h | h <;>
      (rw [Prod.ext_iff] at h; obtain ⟨hk, hv⟩ := h; subst hk; subst hv) <;> tauto

/-- Witness for C2: concrete instantiation with the constant identity metric
(symmetric everywhere), `eps = 1`, indices `(0, 0, 1)`, and the stored
dictionary entry `(0, 0, 1)` at mass 1, r = 1, theta = 1. -/
theorem C2_witness :
    ((0:ℝ) < 1 ∧ (∀ (p : Fin 4 → ℝ) (a b : Fin 4),
        (fun (_ : Fin 4 → ℝ) => (1 : Matrix (Fin 4) (Fin 4) ℝ)) p a b =
        (fun (_ : Fin 4 → ℝ) => (1 : Matrix (Fin 4) (Fin 4) ℝ)) p b a) ∧
      Tensors.christoffel_numerical (fun _ => 0)
          (fun _ => (1 : Matrix (Fin 4) (Fin 4) ℝ)) (fun _ => 0) 1 0 0 1 =
        Tensors.christoffel_numerical (fun _ => 0)
          (fun _ => (1 : Matrix (Fin 4) (Fin 4) ℝ)) (fun _ => 0) 1 0 1 0) ∧
    (((0, 0, 1), -Metric4D.beta 1 1 * Metric4D.phi_prime 1 1) ∈
        Metric4D.christoffel_symbols 1 1 1 ∧ (0 : Fin 4) ≠ (1 : Fin 4) ∧
      ((0, 1, 0), -Metric4D.beta 1 1 * Metric4D.phi_prime 1 1) ∈
        Metric4D.christoffel_symbols 1 1 1) := by
  have hsym : ∀ (p : Fin 4 → ℝ) (a b : Fin 4),
      (fun (_ : Fin 4 → ℝ) => (1 : Matrix (Fin 4) (Fin 4) ℝ)) p a b =
      (fun (_ : Fin 4 → ℝ) => (1 : Matrix (Fin 4) (Fin 4) ℝ)) p b a := by
    intro p a b
    simp [Matrix.one_apply, eq_comm]
  have hmem : ((0, 0, 1), -Metric4D.beta 1 1 * Metric4D.phi_prime 1 1) ∈
      Metric4D.christoffel_symbols 1 1 1 := by
    simp [Metric4D.christoffel_symbols]
  refine ⟨⟨by norm_num, hsym, ?_⟩, hmem, by decide, ?_⟩
  · exact C2_christoffel_symmetric.1 (fun _ => 0)
      (fun _ => (1 : Matrix (Fin 4) (Fin 4) ℝ)) (fun _ => 0) 1 (by norm_num) hsym 0 0 1
  · exact C2_christoffel_symmetric.2 1 1 1 (0, 0, 1)
      (-Metric4D.beta 1 1 * Metric4D.phi_prime 1 1) hmem (by decide)

/-- C3 counterexample: at the all-zero (singular) metric, `np.linalg.inv`
does raise `LinAlgError`, but `christoffel_numerical` catches it and still
returns a result (the all-zero Christoffel array) instead of failing with a
`SingularMetricError` (no such error exists anywhere in the repository). -/
theorem C3_counterexample :
    Tensors.np_linalg_inv (0 : Matrix (Fin 4) (Fin 4) ℝ) =
      Except.error "LinAlgError: Singular matrix" ∧
    Tensors.christoffel_numerical (fun _ => 0) (fun _ => 0) (fun _ => 0) 1e-8 =
      fun _ _ _ => 0 := by
  constructor
  · simp [Tensors.np_linalg_inv]
  · funext mu nu rho
    simp [Tensors.christoffel_numerical, Tensors.christoffel_with_ginv,
      Tensors.christoffel_g_inv, Tensors.np_linalg_inv, Tensors.dg]

/-- C3 amended: when the metric is singular at the evaluation point, the
`LinAlgError` raised by the inversion is caught inside `christoffel_numerical`
(with a warning), the Moore-Penrose pseudoinverse is substituted, and a
Christoffel array is still returned — the computation never fails. -/
theorem C3_amended_pinv_fallback
    (pinv : Matrix (Fin 4) (Fin 4) ℝ → Matrix (Fin 4) (Fin 4) ℝ)
    (g_func : (Fin 4 → ℝ) → Matrix (Fin 4) (Fin 4) ℝ) (coords : Fin 4 → ℝ)
    (eps : ℝ) (hdet : (g_func coords).det = 0) :
    Tensors.christoffel_numerical pinv g_func coords eps =
      Tensors.christoffel_with_ginv (pinv (g_func coords)) g_func coords eps := by
  unfold Tensors.christoffel_numerical Tensors.christoffel_g_inv
    Tensors.np_linalg_inv
  rw [if_pos hdet]

/-- Witness for the amended C3: the all-zero metric is singular and the
fallback equality holds there concretely. -/
theorem C3_amended_witness :
    ((fun (_ : Fin 4 → ℝ) => (0 : Matrix (Fin 4) (Fin 4) ℝ)) (fun _ => 0)).det = 0 ∧
    Tensors.christoffel_numerical (fun _ => 0) (fun _ => 0) (fun _ => 0) 1e-8 =
      Tensors.christoffel_with_ginv
        ((fun (_ : Matrix (Fin 4) (Fin 4) ℝ) => (0 : Matrix (Fin 4) (Fin 4) ℝ))
          ((fun (_ : Fin 4 → ℝ) => (0 : Matrix (Fin 4) (Fin 4) ℝ)) (fun _ => 0)))
        (fun _ => 0) (fun _ => 0) 1e-8 :=
  ⟨by simp, C3_amended_pinv_fallback (fun _ => 0) (fun _ => 0) (fun _ => 0) 1e-8 (by simp)⟩

namespace Tensors

/-- Diagonal test metric whose `(r,r)` component is the cube of the radial
coordinate: sensitive to the finite-difference step size (centered differences
are exact only up to the `h^2` term on a cubic). -/
def gcube : (Fin 4 → ℝ) → Matrix (Fin 4) (Fin 4) ℝ := fun p =>
  Matrix.diagonal ![1, (p 1) ^ 3, 1, 1]

/-- Evaluation point with radial coordinate `10^6`. -/
def ptC8 : Fin 4 → ℝ := ![0, 10 ^ 6, 0, 0]

lemma ptC8_one : ptC8 1 = 10 ^ 6 := rfl

lemma gcube_det : (gcube ptC8).det ≠ 0 := by
  simp [gcube, Matrix.det_diagonal, Fin.prod_univ_four, ptC8]

lemma gcube_ginv (pinv : Matrix (Fin 4) (Fin 4) ℝ → Matrix (Fin 4) (Fin 4) ℝ) :
    christoffel_g_inv pinv (gcube ptC8) =
      Matrix.diagonal ![1, (((10:ℝ) ^ 6) ^ 3)⁻¹, 1, 1] := by
  unfold christoffel_g_inv np_linalg_inv
  rw [if_neg gcube_det]
  show (gcube ptC8)⁻¹ = _
  apply Matrix.inv_eq_right_inv
  rw [gcube, Matrix.diagonal_mul_diagonal]
  ext i j
  fin_cases i <;> fin_cases j <;>
    simp [ptC8, Matrix.diagonal, Matrix.one_apply]

lemma dg_gcube (e : ℝ) : dg gcube ptC8 e 1 1 1 =
    (((10:ℝ) ^ 6 + e) ^ 3 - ((10:ℝ) ^ 6 - e) ^ 3) / (2 * e) := by
  unfold dg
  simp [gcube, ptC8]

end Tensors

/-- C8 counterexample: on the cubic diagonal metric at radial coordinate 10^6,
`christoffel_numerical` with its actual constant step `eps = 1e-8` and the
spec's coordinate-dependent step `h = max(1e-6*|coordinate|, 1e-8) = 1` give
different Christoffel values, so the source does not implement the spec's step
rule. -/
theorem C8_counterexample :
    Tensors.christoffel_numerical (fun _ => 0) Tensors.gcube Tensors.ptC8 1e-8 1 1 1 ≠
      Tensors.christoffel_spec (fun _ => 0) Tensors.gcube Tensors.ptC8 1 1 1 := by
  have hsrc : Tensors.christoffel_numerical (fun _ => 0) Tensors.gcube Tensors.ptC8
      1e-8 1 1 1 =
      (1/2) * (((10:ℝ) ^ 6) ^ 3)⁻¹ *
        ((((10:ℝ) ^ 6 + 1e-8) ^ 3 - ((10:ℝ) ^ 6 - 1e-8) ^ 3) / (2 * 1e-8)) := by
    unfold Tensors.christoffel_numerical Tensors.christoffel_with_ginv
    rw [Tensors.gcube_ginv]
    rw [Fin.sum_univ_four]
    rw [Tensors.dg_gcube]
    simp [Matrix.diagonal]
  have hspec : Tensors.christoffel_spec (fun _ => 0) Tensors.gcube Tensors.ptC8 1 1 1 =
      (1/2) * (((10:ℝ) ^ 6) ^ 3)⁻¹ *
        ((((10:ℝ) ^ 6 + 1) ^ 3 - ((10:ℝ) ^ 6 - 1) ^ 3) / (2 * 1)) := by
    unfold Tensors.christoffel_spec Tensors.dg_spec
    rw [Tensors.gcube_ginv]
    rw [Fin.sum_univ_four]
    have hmax : max (1e-6 * |Tensors.ptC8 1|) 1e-8 = (1 : ℝ) := by
      rw [Tensors.ptC8_one, abs_of_pos (by norm_num)]
      rw [show (1e-6 : ℝ) * 10 ^ 6 = 1 by norm_num]
      rw [max_eq_left (by norm_num)]
    simp only [hmax]
    simp [Tensors.gcube, Tensors.ptC8, Matrix.diagonal]
    ring
  rw [hsrc, hspec]
  intro h
  have h2 : ((((10:ℝ) ^ 6 + 1e-8) ^ 3 - ((10:ℝ) ^ 6 - 1e-8) ^ 3) / (2 * 1e-8)) =
      ((((10:ℝ) ^ 6 + 1) ^ 3 - ((10:ℝ) ^ 6 - 1) ^ 3) / (2 * 1)) := by
    have hne : ((1:ℝ)/2) * (((10:ℝ) ^ 6) ^ 3)⁻¹ ≠ 0 := by norm_num
    exact mul_left_cancel₀ hne h
  norm_num at h2

namespace Tensors

/-- Shifting all coordinates commutes with perturbing one of them. -/
lemma update_add (coords s : Fin 4 → ℝ) (idx : Fin 4) (t : ℝ) :
    (fun i => Function.update coords idx t i + s i) =
    Function.update (fun i => coords i + s i) idx (t + s idx) := by
  funext i
  by_cases h : i = idx
  · subst h; simp
  · simp [Function.update_noteq h]

/-- The centered difference of a coordinate-shifted metric equals the centered
difference of the metric at the shifted point — true because the step is the
constant `eps`, independent of the coordinate values. -/
lemma dg_shift (g_func : (Fin 4 → ℝ) → Matrix (Fin 4) (Fin 4) ℝ)
    (coords s : Fin 4 → ℝ) (eps : ℝ) (idx a b : Fin 4) :
    dg (fun p => g_func (fun i => p i + s i)) coords eps idx a b =
    dg g_func (fun i => coords i + s i) eps idx a b := by
  unfold dg
  beta_reduce
  rw [update_add coords s idx (coords idx + eps),
    update_add coords s idx (coords idx - eps),
    show coords idx + eps + s idx = (coords idx + s idx) + eps by ring,
    show coords idx - eps + s idx = (coords idx + s idx) - eps by ring]

end Tensors

/-- C8 amended: the finite-difference step of `christoffel_numerical` is the
constant `eps` parameter (default `1e-8` in the source), independent of the
coordinate being perturbed.  Consequently the computation is equivariant under
translating the coordinate system — a property that fails for the spec's
coordinate-dependent step `h = max(1e-6*|coordinate|, 1e-8)`, which appears
nowhere in the source. -/
theorem C8_amended_constant_step_translation_equivariant
    (pinv : Matrix (Fin 4) (Fin 4) ℝ → Matrix (Fin 4) (Fin 4) ℝ)
    (g_func : (Fin 4 → ℝ) → Matrix (Fin 4) (Fin 4) ℝ)
    (coords s : Fin 4 → ℝ) (eps : ℝ) :
    Tensors.christoffel_numerical pinv (fun p => g_func (fun i => p i + s i))
        coords eps =
      Tensors.christoffel_numerical pinv g_func (fun i => coords i + s i) eps := by
  unfold Tensors.christoffel_numerical Tensors.christoffel_with_ginv
  funext mu nu rho
  simp only [Tensors.dg_shift]

/-- C10: the pole guard of `inverse_metric_tensor`.  For r > 0: when
`|sin(theta)| ≤ 1e-10` the returned `(phi,phi)` entry is 0, so
`g * g_inv` has `(phi,phi)` entry 0 rather than 1 (not a true inverse there);
when `|sin(theta)| > 1e-10` the product is exactly the 4x4 identity. -/
theorem C10_inverse_metric_pole_guard (mass r theta : ℝ) (hr : 0 < r) :
    (|Real.sin theta| ≤ 1e-10 →
      (Metric4D.metric_tensor mass r theta *
        Metric4D.inverse_metric_tensor mass r theta) 3 3 = 0) ∧
    (1e-10 < |Real.sin theta| →
      Metric4D.metric_tensor mass r theta *
        Metric4D.inverse_metric_tensor mass r theta = 1) := by
  have hγ : Metric4D.gamma mass r ≠ 0 :=
    ne_of_gt (Real.cosh_pos (x := Metric4D.phi_G mass r))
  have hc : C_SI ≠ 0 := by norm_num [C_SI]
  have hr0 : r ≠ 0 := ne_of_gt hr
  constructor
  · intro hpole
    unfold Metric4D.metric_tensor Metric4D.inverse_metric_tensor
    rw [Matrix.diagonal_mul_diagonal, Matrix.diagonal_apply_eq]
    simp [if_neg (not_lt.mpr hpole)]
  · intro hreg
    have hs : Real.sin theta ≠ 0 := by
      intro h0
      rw [h0] at hreg
      norm_num at hreg
    unfold Metric4D.metric_tensor Metric4D.inverse_metric_tensor
    rw [Matrix.diagonal_mul_diagonal]
    ext i j
    fin_cases i <;> fin_cases j <;>
      simp [Matrix.diagonal, Matrix.one_apply, if_pos hreg] <;>
      field_simp

namespace Calibrated

/-! Embedding of `src/ssz_metric_pure/ssz_calibrated.py` (class
`SSZCalibratedMetric`, parameterised by the central mass). -/

/-- Earth mass constant `M_EARTH = 5.9722e24` kg. -/
def M_EARTH : ℝ := 5.9722e24

/-- `mass_to_rg(mass) = 2*G_SI*mass/C_SI**2`. -/
def mass_to_rg (mass : ℝ) : ℝ := 2 * G_SI * mass / C_SI ^ 2

/-- `self.r_g` set in the constructor. -/
def r_g (mass : ℝ) : ℝ := mass_to_rg mass

/-- `self.r_min = max(1e-3*self.r_g, 1.0)` (minimum radius guard). -/
def r_min (mass : ℝ) : ℝ := max (1e-3 * r_g mass) 1

/-- `phi_calibrated(r) = sqrt(r_g / r_safe)` with `r_safe = max(r, r_min)`. -/
def phi_calibrated (mass r : ℝ) : ℝ :=
  Real.sqrt (r_g mass / max r (r_min mass))

/-- `beta(r) = tanh(phi_calibrated(r))`. -/
def beta (mass r : ℝ) : ℝ := Real.tanh (phi_calibrated mass r)

/-- `gamma(r) = cosh(phi_calibrated(r))`. -/
def gamma (mass r : ℝ) : ℝ := Real.cosh (phi_calibrated mass r)

/-- `sech(r) = 1/gamma(r)`. -/
def sech (mass r : ℝ) : ℝ := 1 / gamma mass r

/-- `metric_diag(r) = (g_TT, g_rr) = (-c^2/gamma^2, gamma^2)`. -/
def metric_diag (mass r : ℝ) : ℝ × ℝ :=
  (-(C_SI ^ 2) / gamma mass r ^ 2, gamma mass r ^ 2)

/-- `null_slope(r, outgoing) = ±c/gamma^2`. -/
def null_slope (mass r : ℝ) (outgoing : Bool) : ℝ :=
  let slope := C_SI / gamma mass r ^ 2
  if outgoing then slope else -slope

/-- `newtonian_potential(r) = -G*M/max(r, r_min)`. -/
def newtonian_potential (mass r : ℝ) : ℝ :=
  -(G_SI * mass) / max r (r_min mass)

/-- `gr_time_dilation_weak(r) = sqrt(1 + 2*Phi_N/c^2)`. -/
def gr_time_dilation_weak (mass r : ℝ) : ℝ :=
  Real.sqrt (1 + 2 * newtonian_potential mass r / C_SI ^ 2)

/-- `gr_redshift_weak(r1, r2) = (G*M/c^2)*(1/r1 - 1/r2)`. -/
def gr_redshift_weak (mass r1 r2 : ℝ) : ℝ :=
  G_SI * mass / C_SI ^ 2 * (1 / r1 - 1 / r2)

/-- `redshift_factor(r_emit, r_obs) = gamma(r_emit)/gamma(r_obs)`. -/
def redshift_factor (mass r_emit r_obs : ℝ) : ℝ :=
  gamma mass r_emit / gamma mass r_obs

/-- `time_dilation(r) = sech(r) = 1/gamma(r)`. -/
def time_dilation (mass r : ℝ) : ℝ := sech mass r

/-- `phi_calibrated` is the hyperbolic angle of a `cosh`, so `gamma >= 1`
holds for every mass and every real radius (the clamp keeps the argument
real). -/
lemma one_le_gamma (mass r : ℝ) : 1 ≤ gamma mass r :=
  Real.one_le_cosh (phi_calibrated mass r)

end Calibrated

/-- C6: for every mass M > 0 and every radius r, `null_slope` has magnitude
exactly `c/gamma(r)^2` with `gamma(r) = cosh(phi) >= 1`; hence `|dr/dT| <= c`
at every point, not merely on a sampled grid. -/
theorem C6_null_slope_causal (M r : ℝ) (hM : 0 < M) (outgoing : Bool) :
    |Calibrated.null_slope M r outgoing| = C_SI / Calibrated.gamma M r ^ 2 ∧
    1 ≤ Calibrated.gamma M r ∧
    |Calibrated.null_slope M r outgoing| ≤ C_SI := by
  have h1 : 1 ≤ Calibrated.gamma M r := Calibrated.one_le_gamma M r
  have hpos : 0 < C_SI / Calibrated.gamma M r ^ 2 := by
    apply div_pos (by norm_num [C_SI])
    positivity
  have habs : |Calibrated.null_slope M r outgoing| =
      C_SI / Calibrated.gamma M r ^ 2 := by
    unfold Calibrated.null_slope
    cases outgoing <;> simp [abs_of_pos, abs_of_neg, hpos, le_of_lt hpos]
  refine ⟨habs, h1, ?_⟩
  rw [habs]
  apply div_le_self (by norm_num [C_SI])
  nlinarith
/-- Witness for C6: concrete causality bound at M = 1, r = 1, outgoing. -/
theorem C6_witness :
    (0:ℝ) < 1 ∧
      (|Calibrated.null_slope 1 1 true| = C_SI / Calibrated.gamma 1 1 ^ 2 ∧
        1 ≤ Calibrated.gamma 1 1 ∧ |Calibrated.null_slope 1 1 true| ≤ C_SI) :=
  ⟨by norm_num, C6_null_slope_causal 1 1 (by norm_num) true⟩

/-- C9: for every mass M > 0 and every real radius r (including r ≤ 0, which
the clamp `max(r, r_min)` absorbs), the diagonal components returned by
`metric_diag` satisfy `g_TT*g_rr = -c^2` exactly, with `g_TT ∈ [-c^2, 0)` and
`g_rr >= 1`; in particular both are nonzero so the (T,r) block is
invertible. -/
theorem C9_metric_diag_invariant (M r : ℝ) (hM : 0 < M) :
    (Calibrated.metric_diag M r).1 * (Calibrated.metric_diag M r).2 = -(C_SI ^ 2) ∧
    -(C_SI ^ 2) ≤ (Calibrated.metric_diag M r).1 ∧
    (Calibrated.metric_diag M r).1 < 0 ∧
    1 ≤ (Calibrated.metric_diag M r).2 ∧
    (Calibrated.metric_diag M r).1 * (Calibrated.metric_diag M r).2 ≠ 0 := by
  have h1 : 1 ≤ Calibrated.gamma M r := Calibrated.one_le_gamma M r
  have hγ : Calibrated.gamma M r ≠ 0 := by positivity
  have hc : (0:ℝ) < C_SI := by norm_num [C_SI]
  unfold Calibrated.metric_diag
  refine ⟨by field_simp, ?_, ?_, ?_, ?_⟩
  · rw [neg_div, neg_le_neg_iff]
    apply div_le_self (by positivity)
    nlinarith
  · apply div_neg_of_neg_of_pos (by nlinarith)
    positivity
  · nlinarith
  · have : (-(C_SI ^ 2) / Calibrated.gamma M r ^ 2) * Calibrated.gamma M r ^ 2 =
        -(C_SI ^ 2) := by field_simp
    rw [this]
    nlinarith

/-- Witness for C9: concrete invariant at M = 1 and the out-of-domain radius
r = -5 (the clamp makes it well-defined). -/
theorem C9_witness :
    (0:ℝ) < 1 ∧
      ((Calibrated.metric_diag 1 (-5)).1 * (Calibrated.metric_diag 1 (-5)).2 =
          -(C_SI ^ 2) ∧
        -(C_SI ^ 2) ≤ (Calibrated.metric_diag 1 (-5)).1 ∧
        (Calibrated.metric_diag 1 (-5)).1 < 0 ∧
        1 ≤ (Calibrated.metric_diag 1 (-5)).2 ∧
        (Calibrated.metric_diag 1 (-5)).1 * (Calibrated.metric_diag 1 (-5)).2 ≠ 0) :=
  ⟨by norm_num, C9_metric_diag_invariant 1 (-5) (by norm_num)⟩

/-- Witness for C10: at theta = 0 the guard fires and the product's (3,3)
entry is 0; at theta = pi/2 the product is the identity (mass 1, r = 1). -/
theorem C10_witness :
    ((0:ℝ) < 1 ∧ |Real.sin 0| ≤ 1e-10 ∧
      (Metric4D.metric_tensor 1 1 0 * Metric4D.inverse_metric_tensor 1 1 0) 3 3 = 0) ∧
    (1e-10 < |Real.sin (Real.pi / 2)| ∧
      Metric4D.metric_tensor 1 1 (Real.pi / 2) *
        Metric4D.inverse_metric_tensor 1 1 (Real.pi / 2) = 1) := by
  have h0 : |Real.sin 0| ≤ 1e-10 := by norm_num
  have h1 : (1e-10:ℝ) < |Real.sin (Real.pi / 2)| := by
    rw [Real.sin_pi_div_two]
    norm_num
  exact ⟨⟨by norm_num, h0, (C10_inverse_metric_pole_guard 1 1 0 (by norm_num)).1 h0⟩,
    h1, (C10_inverse_metric_pole_guard 1 1 (Real.pi / 2) (by norm_num)).2 h1⟩

namespace PhiSpiral

/-! Embedding of `src/ssz_metric_pure/geodesics_phi_spiral.py` (class
`PhiSpiralGeodesicSolver`, whose constructor takes the spiral profile
`phi_G_func` as a parameter — modelled as a function argument).  The local
variables `r_vals`, `V_vals`, `target` of `turning_points` are lifted to
top-level definitions. -/

/-- Model of `np.linspace(a, b, n)`: n evenly spaced samples from a to b. -/
def linspace (a b : ℝ) (n : ℕ) : List ℝ :=
  (List.range n).map (fun (i : ℕ) => a + (b - a) * (i : ℝ) / ((n : ℝ) - 1))

/-- `effective_potential(r) = c^2/gamma^2(r)` with `gamma = cosh(phi_G(r))`. -/
def effective_potential (phi_G : ℝ → ℝ) (r : ℝ) : ℝ :=
  C_SI ^ 2 / Real.cosh (phi_G r) ^ 2

/-- The sampled potential values `V_vals = [effective_potential(r) for r in r_vals]`. -/
def V_vals (phi_G : ℝ → ℝ) (rmin rmax : ℝ) (n : ℕ) : List ℝ :=
  (linspace rmin rmax n).map (effective_potential phi_G)

/-- The strict sign-change test of the loop body:
`(V_vals[i] - target)*(V_vals[i+1] - target) < 0` with `target = E^2/c^2`. -/
abbrev signChangeAt (phi_G : ℝ → ℝ) (E rmin rmax : ℝ) (n : ℕ) (i : ℕ) : Prop :=
  (((V_vals phi_G rmin rmax n).getD i 0) - E ^ 2 / C_SI ^ 2) *
    (((V_vals phi_G rmin rmax n).getD (i+1) 0) - E ^ 2 / C_SI ^ 2) < 0

/-- The linear interpolant appended for a crossing pair:
`r_turn = r_vals[i] + (r_vals[i+1]-r_vals[i])*(target - V_vals[i])/(V_vals[i+1]-V_vals[i])`. -/
def interpAt (phi_G : ℝ → ℝ) (E rmin rmax : ℝ) (n : ℕ) (i : ℕ) : ℝ :=
  (linspace rmin rmax n).getD i 0 +
    ((linspace rmin rmax n).getD (i+1) 0 - (linspace rmin rmax n).getD i 0) *
      (E ^ 2 / C_SI ^ 2 - (V_vals phi_G rmin rmax n).getD i 0) /
      ((V_vals phi_G rmin rmax n).getD (i+1) 0 - (V_vals phi_G rmin rmax n).getD i 0)

/-- `turning_points(E, r_min, r_max, n_points)`: scans every adjacent grid
pair and appends the linear interpolant whenever the strict sign change test
fires, in increasing grid order. -/
def turning_points (phi_G : ℝ → ℝ) (E rmin rmax : ℝ) (n : ℕ) : List ℝ :=
  (List.range ((V_vals phi_G rmin rmax n).length - 1)).filterMap (fun i =>
    if signChangeAt phi_G E rmin rmax n i then some (interpAt phi_G E rmin rmax n i)
    else none)

lemma linspace_length (a b : ℝ) (n : ℕ) : (linspace a b n).length = n := by
  unfold linspace
  rw [List.length_map, List.length_range]

lemma V_vals_length (phi_G : ℝ → ℝ) (rmin rmax : ℝ) (n : ℕ) :
    (V_vals phi_G rmin rmax n).length = (linspace rmin rmax n).length := by
  simp [V_vals]

lemma getD_map (f : ℝ → ℝ) (l : List ℝ) (i : ℕ) (h : i < l.length) :
    (l.map f).getD i 0 = f (l.getD i 0) := by
  rw [List.getD_eq_getElem _ _ (by simpa using h), List.getD_eq_getElem _ _ h,
    List.getElem_map]

lemma filterMap_if {α β : Type} (p : α → Prop) [DecidablePred p] (f : α → β)
    (l : List α) :
    l.filterMap (fun a => if p a then some (f a) else none) =
    (l.filter (fun a => decide (p a))).map f := by
  induction l with
  | nil => rfl
  | cons a t ih =>
    by_cases h : p a <;> simp [List.filterMap_cons, List.filter_cons, h, ih]

end PhiSpiral

/-- C5: `turning_points` returns exactly one radius per adjacent grid pair
with a strict sign change of `E^2/c^2 - V_eff` — all such crossings, in
increasing grid order, none for pairs without a strict change (the filter
identity) — and each returned radius is the linear interpolant and lies
strictly between the bracketing grid points (the negative product says the
interpolant separates them strictly). -/
theorem C5_turning_points_crossings (phi_G : ℝ → ℝ) (E rmin rmax : ℝ) (n : ℕ) :
    PhiSpiral.turning_points phi_G E rmin rmax n =
      ((List.range ((PhiSpiral.linspace rmin rmax n).length - 1)).filter
          (fun i => decide (PhiSpiral.signChangeAt phi_G E rmin rmax n i))).map
        (PhiSpiral.interpAt phi_G E rmin rmax n) ∧
    (∀ i, i + 1 < (PhiSpiral.linspace rmin rmax n).length →
      PhiSpiral.signChangeAt phi_G E rmin rmax n i →
      ((PhiSpiral.linspace rmin rmax n).getD i 0 -
          PhiSpiral.interpAt phi_G E rmin rmax n i) *
        ((PhiSpiral.linspace rmin rmax n).getD (i+1) 0 -
          PhiSpiral.interpAt phi_G E rmin rmax n i) < 0) := by
  constructor
  · unfold PhiSpiral.turning_points
    rw [PhiSpiral.V_vals_length]
    exact PhiSpiral.filterMap_if _ _ _
  · intro i hi hsc
    have hi1 : i < (PhiSpiral.linspace rmin rmax n).length := Nat.lt_of_succ_lt hi
    set rs := PhiSpiral.linspace rmin rmax n with hrs
    set t := E ^ 2 / C_SI ^ 2 with ht
    have hVi : (PhiSpiral.V_vals phi_G rmin rmax n).getD i 0 =
        PhiSpiral.effective_potential phi_G (rs.getD i 0) := by
      rw [PhiSpiral.V_vals, PhiSpiral.getD_map _ _ _ hi1]
    have hVi1 : (PhiSpiral.V_vals phi_G rmin rmax n).getD (i+1) 0 =
        PhiSpiral.effective_potential phi_G (rs.getD (i+1) 0) := by
      rw [PhiSpiral.V_vals, PhiSpiral.getD_map _ _ _ hi]
    unfold PhiSpiral.signChangeAt at hsc
    set A := (PhiSpiral.V_vals phi_G rmin rmax n).getD i 0 - t with hA
    set B := (PhiSpiral.V_vals phi_G rmin rmax n).getD (i+1) 0 - t with hB
    have hABlt : A * B < 0 := hsc
    have hVne : (PhiSpiral.V_vals phi_G rmin rmax n).getD i 0 ≠
        (PhiSpiral.V_vals phi_G rmin rmax n).getD (i+1) 0 := by
      intro h
      have hAB : A = B := by rw [hA, hB, h]
      rw [hAB] at hABlt
      exact absurd hABlt (not_lt.mpr (mul_self_nonneg B))
    have hrne : rs.getD i 0 ≠ rs.getD (i+1) 0 := by
      intro h
      apply hVne
      rw [hVi, hVi1, h]
    have hden : B - A ≠ 0 := by
      intro h
      apply hVne
      have : B = A := by linarith
      rw [hA, hB] at this
      linarith
    set s := (t - (PhiSpiral.V_vals phi_G rmin rmax n).getD i 0) /
      ((PhiSpiral.V_vals phi_G rmin rmax n).getD (i+1) 0 -
        (PhiSpiral.V_vals phi_G rmin rmax n).getD i 0) with hs
    have hsnum : t - (PhiSpiral.V_vals phi_G rmin rmax n).getD i 0 = -A := by
      rw [hA]; ring
    have hsden : (PhiSpiral.V_vals phi_G rmin rmax n).getD (i+1) 0 -
        (PhiSpiral.V_vals phi_G rmin rmax n).getD i 0 = B - A := by
      rw [hA, hB]; ring
    have hkey : s * (B - A) = -A := by
      rw [hs, hsnum, hsden, div_mul_cancel₀ _ hden]
    have hs01 : 0 < s ∧ s < 1 := by
      rcases mul_neg_iff.mp hABlt with ⟨hA0, hB0⟩ | ⟨hA0, hB0⟩
      · constructor
        · by_contra hcon
          push_neg at hcon
          have h1 : 0 ≤ s * (B - A) := by
            nlinarith
          rw [hkey] at h1
          linarith
        · by_contra hcon
          push_neg at hcon
          have h1 : s * (B - A) ≤ 1 * (B - A) :=
            mul_le_mul_of_nonpos_right hcon (by linarith)
          rw [hkey, one_mul] at h1
          linarith
      · constructor
        · apply div_pos (by rw [hsnum]; linarith)
          rw [hsden]; linarith
        · rw [hs, hsnum, hsden]
          rw [div_lt_one (by linarith)]
          linarith
    have hinterp : PhiSpiral.interpAt phi_G E rmin rmax n i =
        rs.getD i 0 + (rs.getD (i+1) 0 - rs.getD i 0) * s := by
      rw [PhiSpiral.interpAt, hs, ← hrs, ← ht, mul_div_assoc]
    rw [hinterp]
    have hd : rs.getD (i+1) 0 - rs.getD i 0 ≠ 0 := fun h => hrne (by linarith)
    have hpos : 0 < (rs.getD (i+1) 0 - rs.getD i 0) ^ 2 * (s * (1 - s)) :=
      mul_pos (sq_pos_of_ne_zero hd)
        (mul_pos hs01.1 (by linarith [hs01.2]))
    nlinarith [hpos]

/-- Witness for C5: with profile `phi_G(r) = log(1+r)` on the 2-point grid
`[0, 1]` and energy chosen so that the target level `4c^2/5` lies strictly
between `V(0) = c^2` and `V(1) = 16c^2/25`, the pair has a strict sign change
and the interpolated turning point lies strictly between the grid points. -/
theorem C5_witness :
    (0 + 1 < (PhiSpiral.linspace 0 1 2).length ∧
      PhiSpiral.signChangeAt (fun r => Real.log (1 + r))
        (2 * C_SI ^ 2 / Real.sqrt 5) 0 1 2 0) ∧
    ((PhiSpiral.linspace 0 1 2).getD 0 0 -
        PhiSpiral.interpAt (fun r => Real.log (1 + r))
          (2 * C_SI ^ 2 / Real.sqrt 5) 0 1 2 0) *
      ((PhiSpiral.linspace 0 1 2).getD (0 + 1) 0 -
        PhiSpiral.interpAt (fun r => Real.log (1 + r))
          (2 * C_SI ^ 2 / Real.sqrt 5) 0 1 2 0) < 0 := by
  have hls : PhiSpiral.linspace 0 1 2 = [0, 1] := by
    unfold PhiSpiral.linspace
    norm_num [List.range_succ]
  have hlen : 0 + 1 < (PhiSpiral.linspace 0 1 2).length := by
    rw [hls]
    norm_num
  have heff0 : PhiSpiral.effective_potential (fun r => Real.log (1 + r)) 0 =
      C_SI ^ 2 := by
    unfold PhiSpiral.effective_potential
    norm_num
  have heff1 : PhiSpiral.effective_potential (fun r => Real.log (1 + r)) 1 =
      16 * C_SI ^ 2 / 25 := by
    unfold PhiSpiral.effective_potential
    beta_reduce
    rw [show (1:ℝ) + 1 = 2 by norm_num, Real.cosh_log (by norm_num : (0:ℝ) < 2)]
    norm_num
    ring
  have hVl : PhiSpiral.V_vals (fun r => Real.log (1 + r)) 0 1 2 =
      [C_SI ^ 2, 16 * C_SI ^ 2 / 25] := by
    rw [PhiSpiral.V_vals, hls]
    rw [List.map_cons, List.map_cons, List.map_nil, heff0, heff1]
  have hT : (2 * C_SI ^ 2 / Real.sqrt 5) ^ 2 / C_SI ^ 2 = 4 * C_SI ^ 2 / 5 := by
    rw [div_pow, Real.sq_sqrt (by norm_num : (0:ℝ) ≤ 5)]
    have hc : C_SI ≠ 0 := by norm_num [C_SI]
    field_simp
    ring
  have hsc : PhiSpiral.signChangeAt (fun r => Real.log (1 + r))
      (2 * C_SI ^ 2 / Real.sqrt 5) 0 1 2 0 := by
    show ((PhiSpiral.V_vals (fun r => Real.log (1 + r)) 0 1 2).getD 0 0 - _) *
      _ < 0
    rw [hVl]
    simp only [List.getD_cons_zero, List.getD_cons_succ]
    rw [hT]
    norm_num [C_SI]
  exact ⟨⟨hlen, hsc⟩,
    (C5_turning_points_crossings (fun r => Real.log (1 + r))
      (2 * C_SI ^ 2 / Real.sqrt 5) 0 1 2).2 0 hlen hsc⟩

namespace GeodesicsCompact

/-! Embedding of `src/geodesics_compact.py` (`timelike_geodesic` and its
helpers).  The float state is modelled as `Option ℝ`: `some x` is a finite
real, `none` is a non-finite IEEE value (NaN or an infinity).  numpy's
`log1p(x)` is real for `1 + x > 0`, `-inf` at `1 + x = 0` and NaN for
`1 + x < 0`; `cosh` maps `-inf` to `+inf` and NaN to NaN; a comparison
`R <= 0` with `R = NaN` evaluates to `False`, so the turning-point guard does
not fire on NaN.  The step function below follows those branches exactly. -/

/-- Module constant `c = 299_792_458.0`. -/
def c : ℝ := 299792458

/-- `phi_G(r, k=0.75, r0=1.0) = k*log1p(r/r0)`, on the domain where `log1p`
is real. -/
def phi_G (r : ℝ) (k : ℝ := 0.75) (r0 : ℝ := 1.0) : ℝ :=
  k * Real.log (1 + r / r0)

/-- `gamma(r) = cosh(phi_G(r))` (with the default profile parameters). -/
def gamma (r : ℝ) : ℝ := Real.cosh (phi_G r)

/-- The radicand `E_over_c**2 - c**2/gamma(r)**2` of the timelike first
integral. -/
def radicand (E_over_c rv : ℝ) : ℝ := E_over_c ^ 2 - c ^ 2 / gamma rv ^ 2

/-- One row of the preallocated arrays: `(lam[i], r[i], T[i])`. -/
structure TLState where
  lam : ℝ
  r : Option ℝ
  T : Option ℝ

/-- One iteration of the `for i in range(1, steps)` loop of
`timelike_geodesic`: returns `none` when the `if R <= 0: break` truncation
fires, and `some` of the next row otherwise.  The three non-`break` branches
mirror IEEE evaluation: real state in the `log1p` domain; `-inf` angle at
`1 + r = 0` (radius advances by a real amount but `dT/dlam` is infinite);
NaN propagation for `1 + r < 0` or an already non-finite radius, where the
`R <= 0` comparison is `False` and no truncation happens. -/
def tlStep (E_over_c dlam sign : ℝ) (s : TLState) : Option TLState :=
  match s.r with
  | none => some { lam := s.lam + dlam, r := none, T := none }
  | some rv =>
    if 0 < 1 + rv then
      let g := gamma rv
      let R := E_over_c ^ 2 - c ^ 2 / g ^ 2
      if R ≤ 0 then none
      else
        some { lam := s.lam + dlam,
               r := some (rv + dlam * (sign * Real.sqrt R)),
               T := s.T.map (fun Tv => Tv + dlam * (g ^ 2 / c ^ 2 * (E_over_c * c))) }
    else if 1 + rv = 0 then
      let R := E_over_c ^ 2
      if R ≤ 0 then none
      else
        some { lam := s.lam + dlam,
               r := some (rv + dlam * (sign * Real.sqrt R)),
               T := none }
    else some { lam := s.lam + dlam, r := none, T := none }

/-- The retained rows of the loop, starting from (and including) the row `s`,
with at most `n` further iterations (`n = steps - 1` for the full call). -/
def tlTraj (E_over_c dlam sign : ℝ) : ℕ → TLState → List TLState
  | 0, s => [s]
  | n + 1, s =>
    s :: (match tlStep E_over_c dlam sign s with
          | none => []
          | some s2 => tlTraj E_over_c dlam sign n s2)

/-- `timelike_geodesic(r0, E_over_c, dlam, steps, sign)`: the three returned
(truncated) arrays `lam`, `r`, `T`; row 0 is `(0.0, r0, 0.0)`.  (For
`steps = 0` the source raises IndexError on the empty preallocation, so the
model is meaningful for `steps >= 1`, which the theorems assume.) -/
def timelike_geodesic (r0 E_over_c dlam : ℝ) (steps : ℕ) (sign : ℝ) :
    List ℝ × List (Option ℝ) × List (Option ℝ) :=
  let tr := tlTraj E_over_c dlam sign (steps - 1) { lam := 0, r := some r0, T := some 0 }
  (tr.map TLState.lam, tr.map TLState.r, tr.map TLState.T)

lemma tlTraj_succ (E_over_c dlam sign : ℝ) (n : ℕ) (s : TLState) :
    tlTraj E_over_c dlam sign (n + 1) s =
      s :: (match tlStep E_over_c dlam sign s with
            | none => []
            | some s2 => tlTraj E_over_c dlam sign n s2) := rfl

lemma tlTraj_succ_of_step (E_over_c dlam sign : ℝ) (n : ℕ) (s s2 : TLState)
    (h : tlStep E_over_c dlam sign s = some s2) :
    tlTraj E_over_c dlam sign (n + 1) s = s :: tlTraj E_over_c dlam sign n s2 := by
  rw [tlTraj_succ, h]

lemma tlTraj_succ_of_break (E_over_c dlam sign : ℝ) (n : ℕ) (s : TLState)
    (h : tlStep E_over_c dlam sign s = none) :
    tlTraj E_over_c dlam sign (n + 1) s = [s] := by
  rw [tlTraj_succ, h]

lemma self_mem_tlTraj (E_over_c dlam sign : ℝ) (n : ℕ) (s : TLState) :
    s ∈ tlTraj E_over_c dlam sign n s := by
  cases n with
  | zero => exact List.mem_singleton.mpr rfl
  | succ n => exact List.mem_cons_self _ _

lemma tlTraj_ne_nil (E_over_c dlam sign : ℝ) (n : ℕ) (s : TLState) :
    tlTraj E_over_c dlam sign n s ≠ [] := by
  cases n with
  | zero => simp [tlTraj]
  | succ n => rw [tlTraj_succ]; simp

lemma tlTraj_head (E_over_c dlam sign : ℝ) (n : ℕ) (s : TLState) :
    (tlTraj E_over_c dlam sign n s).head? = some s := by
  cases n with
  | zero => rfl
  | succ n => rw [tlTraj_succ]; rfl

lemma mem_tlTraj_of_chain2 (E_over_c dlam sign : ℝ) (s0 s1 s2 : TLState)
    (h1 : tlStep E_over_c dlam sign s0 = some s1)
    (h2 : tlStep E_over_c dlam sign s1 = some s2) (n : ℕ) :
    s2 ∈ tlTraj E_over_c dlam sign (n + 2) s0 := by
  rw [show n + 2 = (n + 1) + 1 from rfl,
    tlTraj_succ_of_step _ _ _ _ _ _ h1,
    tlTraj_succ_of_step _ _ _ _ _ _ h2]
  exact List.mem_cons_of_mem _ (List.mem_cons_of_mem _
    (self_mem_tlTraj _ _ _ _ _))

end GeodesicsCompact

/-- C4 counterexample: starting at r0 = 1/2 > 0 with E/c = 2c, step 1/1000 and
inward direction, the first Euler step jumps the radius below -1 (outside the
domain of the spiral profile `log1p`), so the next iteration computes NaN;
the `R <= 0` guard does not fire on NaN and a NaN (non-finite) sample is
written into the returned r array — the trajectory is not truncated and not
every sample is a finite real. -/
theorem C4_counterexample :
    none ∈ (GeodesicsCompact.timelike_geodesic (1/2) (2 * GeodesicsCompact.c)
      (1/1000) 3 (-1)).2.1 := by
  have hc : (0:ℝ) < GeodesicsCompact.c := by norm_num [GeodesicsCompact.c]
  have hg1 : 1 ≤ GeodesicsCompact.gamma (1/2) := Real.one_le_cosh _
  have hR3 : 3 * GeodesicsCompact.c ^ 2 ≤ (2 * GeodesicsCompact.c) ^ 2 -
      GeodesicsCompact.c ^ 2 / GeodesicsCompact.gamma (1/2) ^ 2 := by
    have hle : GeodesicsCompact.c ^ 2 / GeodesicsCompact.gamma (1/2) ^ 2 ≤
        GeodesicsCompact.c ^ 2 :=
      div_le_self (by positivity) (by nlinarith)
    nlinarith
  have hRnot : ¬((2 * GeodesicsCompact.c) ^ 2 -
      GeodesicsCompact.c ^ 2 / GeodesicsCompact.gamma (1/2) ^ 2 ≤ 0) := by
    nlinarith
  have h1 : GeodesicsCompact.tlStep (2 * GeodesicsCompact.c) (1/1000) (-1)
      ⟨0, some (1/2), some 0⟩ =
      some ⟨0 + 1/1000,
        some ((1:ℝ)/2 + 1/1000 * (-1 * Real.sqrt ((2 * GeodesicsCompact.c) ^ 2 -
          GeodesicsCompact.c ^ 2 / GeodesicsCompact.gamma (1/2) ^ 2))),
        some (0 + 1/1000 * (GeodesicsCompact.gamma (1/2) ^ 2 /
          GeodesicsCompact.c ^ 2 * (2 * GeodesicsCompact.c * GeodesicsCompact.c)))⟩ := by
    simp only [GeodesicsCompact.tlStep, Option.map_some']
    rw [if_pos (by norm_num : (0:ℝ) < 1 + 1/2), if_neg hRnot]
  have hsqrtge : GeodesicsCompact.c ≤ Real.sqrt ((2 * GeodesicsCompact.c) ^ 2 -
      GeodesicsCompact.c ^ 2 / GeodesicsCompact.gamma (1/2) ^ 2) := by
    have h0 : GeodesicsCompact.c ^ 2 ≤ (2 * GeodesicsCompact.c) ^ 2 -
        GeodesicsCompact.c ^ 2 / GeodesicsCompact.gamma (1/2) ^ 2 := by nlinarith
    calc GeodesicsCompact.c = Real.sqrt (GeodesicsCompact.c ^ 2) :=
          (Real.sqrt_sq hc.le).symm
      _ ≤ _ := Real.sqrt_le_sqrt h0
  have hlt : 1 + ((1:ℝ)/2 + 1/1000 * (-1 * Real.sqrt ((2 * GeodesicsCompact.c) ^ 2 -
      GeodesicsCompact.c ^ 2 / GeodesicsCompact.gamma (1/2) ^ 2))) < 0 := by
    have hcval : GeodesicsCompact.c = 299792458 := rfl
    nlinarith
  have h2 : GeodesicsCompact.tlStep (2 * GeodesicsCompact.c) (1/1000) (-1)
      ⟨0 + 1/1000,
        some ((1:ℝ)/2 + 1/1000 * (-1 * Real.sqrt ((2 * GeodesicsCompact.c) ^ 2 -
          GeodesicsCompact.c ^ 2 / GeodesicsCompact.gamma (1/2) ^ 2))),
        some (0 + 1/1000 * (GeodesicsCompact.gamma (1/2) ^ 2 /
          GeodesicsCompact.c ^ 2 * (2 * GeodesicsCompact.c * GeodesicsCompact.c)))⟩ =
      some ⟨(0 + 1/1000) + 1/1000, none, none⟩ := by
    simp only [GeodesicsCompact.tlStep]
    rw [if_neg (not_lt.mpr hlt.le), if_neg (ne_of_lt hlt)]
  have hmem := GeodesicsCompact.mem_tlTraj_of_chain2 _ _ _ _ _ _ h1 h2 0
  unfold GeodesicsCompact.timelike_geodesic
  exact List.mem_map_of_mem GeodesicsCompact.TLState.r hmem

namespace GeodesicsCompact

lemma getLast?_cons_of_ne_nil {α : Type} (a : α) (l : List α) (h : l ≠ []) :
    (a :: l).getLast? = l.getLast? := by
  cases l with
  | nil => exact absurd rfl h
  | cons b t => simp [List.getLast?_cons_cons]

/-- Invariants of the retained loop rows while the radius stays inside the
domain of the spiral profile: every retained row is fully finite, each
non-initial row was produced from a strictly positive radicand at its
predecessor, and the loop either exhausts its budget or stops exactly at a
non-positive radicand. -/
lemma tlTraj_props (E_over_c dlam sign : ℝ) :
    ∀ (n : ℕ) (s : TLState), (∃ rv, s.r = some rv) → (∃ tv, s.T = some tv) →
    (∀ u ∈ tlTraj E_over_c dlam sign n s, ∀ rv, u.r = some rv → 0 < 1 + rv) →
    ((∀ u ∈ tlTraj E_over_c dlam sign n s,
        (∃ rv, u.r = some rv) ∧ (∃ tv, u.T = some tv)) ∧
      List.Chain' (fun u _ => ∃ rv, u.r = some rv ∧ 0 < radicand E_over_c rv)
        (tlTraj E_over_c dlam sign n s) ∧
      ((tlTraj E_over_c dlam sign n s).length = n + 1 ∨
        ∃ u rv, (tlTraj E_over_c dlam sign n s).getLast? = some u ∧
          u.r = some rv ∧ radicand E_over_c rv ≤ 0)) := by
  intro n
  induction n with
  | zero =>
    intro s hr hT _
    refine ⟨?_, List.chain'_singleton _, Or.inl rfl⟩
    intro u hu
    have : u = s := by simpa [tlTraj] using hu
    subst this
    exact ⟨hr, hT⟩
  | succ n ih =>
    intro s hr hT hdom
    obtain ⟨rv, hrv⟩ := hr
    obtain ⟨tv, htv⟩ := hT
    have hdv : 0 < 1 + rv := hdom s (self_mem_tlTraj _ _ _ _ _) rv hrv
    by_cases hbr : radicand E_over_c rv ≤ 0
    · have hstep : tlStep E_over_c dlam sign s = none := by
        have hbr2 : E_over_c ^ 2 - c ^ 2 / gamma rv ^ 2 ≤ 0 := hbr
        simp only [tlStep, hrv]
        rw [if_pos hdv, if_pos hbr2]
      rw [tlTraj_succ_of_break _ _ _ _ _ hstep]
      refine ⟨?_, List.chain'_singleton _, Or.inr ⟨s, rv, rfl, hrv, hbr⟩⟩
      intro u hu
      have : u = s := by simpa using hu
      subst this
      exact ⟨⟨rv, hrv⟩, ⟨tv, htv⟩⟩
    · push_neg at hbr
      have hstep : tlStep E_over_c dlam sign s =
          some ⟨s.lam + dlam,
            some (rv + dlam * (sign * Real.sqrt (radicand E_over_c rv))),
            some (tv + dlam * (gamma rv ^ 2 / c ^ 2 * (E_over_c * c)))⟩ := by
        have hbr2 : ¬(E_over_c ^ 2 - c ^ 2 / gamma rv ^ 2 ≤ 0) := not_le.mpr hbr
        simp only [tlStep, hrv, htv, Option.map_some']
        rw [if_pos hdv, if_neg hbr2]
        rfl
      have e := tlTraj_succ_of_step E_over_c dlam sign n s _ hstep
      have hdom2 : ∀ u ∈ tlTraj E_over_c dlam sign n
          ⟨s.lam + dlam,
            some (rv + dlam * (sign * Real.sqrt (radicand E_over_c rv))),
            some (tv + dlam * (gamma rv ^ 2 / c ^ 2 * (E_over_c * c)))⟩,
          ∀ rv2, u.r = some rv2 → 0 < 1 + rv2 := by
        intro u hu rv2 h
        exact hdom u (by rw [e]; exact List.mem_cons_of_mem _ hu) rv2 h
      obtain ⟨hall, hchain, hlen⟩ := ih _ ⟨_, rfl⟩ ⟨_, rfl⟩ hdom2
      rw [e]
      refine ⟨?_, ?_, ?_⟩
      · intro u hu
        rcases List.mem_cons.mp hu with h | h
        · subst h
          exact ⟨⟨rv, hrv⟩, ⟨tv, htv⟩⟩
        · exact hall u h
      · rw [List.chain'_cons']
        exact ⟨fun b _ => ⟨rv, hrv, hbr⟩, hchain⟩
      · rcases hlen with h | ⟨u, rv2, hlast, hur, hrad⟩
        · left
          simp only [List.length_cons, h]
        · right
          refine ⟨u, rv2, ?_, hur, hrad⟩
          rw [getLast?_cons_of_ne_nil _ _ (tlTraj_ne_nil _ _ _ _ _)]
          exact hlast

end GeodesicsCompact

/-- C4 amended: the three returned arrays always have equal length; provided
every retained radius stays inside the domain of the spiral profile
(`1 + r > 0`, where `log1p` is real — without this, an inward step past
r = -1 produces NaN that is retained untruncated, see the counterexample),
every retained sample is a finite real, the radicand at the predecessor of
every retained non-initial step was strictly positive, and the trajectory is
either full-length or truncated exactly at the first non-positive
radicand. -/
theorem C4_amended_truncation (r0 E_over_c dlam sign : ℝ) (steps : ℕ)
    (hsteps : 1 ≤ steps)
    (hdom : ∀ u ∈ GeodesicsCompact.tlTraj E_over_c dlam sign (steps - 1)
        ⟨0, some r0, some 0⟩, ∀ rv, u.r = some rv → 0 < 1 + rv) :
    ((GeodesicsCompact.timelike_geodesic r0 E_over_c dlam steps sign).1.length =
        (GeodesicsCompact.timelike_geodesic r0 E_over_c dlam steps sign).2.1.length ∧
      (GeodesicsCompact.timelike_geodesic r0 E_over_c dlam steps sign).2.1.length =
        (GeodesicsCompact.timelike_geodesic r0 E_over_c dlam steps sign).2.2.length) ∧
    (∀ u ∈ GeodesicsCompact.tlTraj E_over_c dlam sign (steps - 1)
        ⟨0, some r0, some 0⟩, (∃ rv, u.r = some rv) ∧ (∃ tv, u.T = some tv)) ∧
    List.Chain' (fun u _ => ∃ rv, u.r = some rv ∧
        0 < GeodesicsCompact.radicand E_over_c rv)
      (GeodesicsCompact.tlTraj E_over_c dlam sign (steps - 1) ⟨0, some r0, some 0⟩) ∧
    ((GeodesicsCompact.tlTraj E_over_c dlam sign (steps - 1)
        ⟨0, some r0, some 0⟩).length = steps ∨
      ∃ u rv, (GeodesicsCompact.tlTraj E_over_c dlam sign (steps - 1)
          ⟨0, some r0, some 0⟩).getLast? = some u ∧ u.r = some rv ∧
        GeodesicsCompact.radicand E_over_c rv ≤ 0) := by
  obtain ⟨hall, hchain, hlen⟩ :=
    GeodesicsCompact.tlTraj_props E_over_c dlam sign (steps - 1)
      ⟨0, some r0, some 0⟩ ⟨r0, rfl⟩ ⟨0, rfl⟩ hdom
  refine ⟨⟨by simp [GeodesicsCompact.timelike_geodesic],
    by simp [GeodesicsCompact.timelike_geodesic]⟩, hall, hchain, ?_⟩
  rcases hlen with h | h
  · left
    rw [h, Nat.sub_add_cancel hsteps]
  · right
    exact h

/-- Witness for the amended C4: concrete instantiation at r0 = 1, E/c = 0,
dlam = 1, one step, outward direction; the single retained row stays in the
profile domain and the properties hold. -/
theorem C4_amended_witness :
    ((1:ℕ) ≤ 1 ∧
      (∀ u ∈ GeodesicsCompact.tlTraj 0 1 1 (1 - 1) ⟨0, some 1, some 0⟩,
        ∀ rv, u.r = some rv → 0 < 1 + rv)) ∧
    (((GeodesicsCompact.timelike_geodesic 1 0 1 1 1).1.length =
        (GeodesicsCompact.timelike_geodesic 1 0 1 1 1).2.1.length ∧
      (GeodesicsCompact.timelike_geodesic 1 0 1 1 1).2.1.length =
        (GeodesicsCompact.timelike_geodesic 1 0 1 1 1).2.2.length) ∧
    (∀ u ∈ GeodesicsCompact.tlTraj 0 1 1 (1 - 1) ⟨0, some 1, some 0⟩,
      (∃ rv, u.r = some rv) ∧ (∃ tv, u.T = some tv)) ∧
    List.Chain' (fun u _ => ∃ rv, u.r = some rv ∧
        0 < GeodesicsCompact.radicand 0 rv)
      (GeodesicsCompact.tlTraj 0 1 1 (1 - 1) ⟨0, some 1, some 0⟩) ∧
    ((GeodesicsCompact.tlTraj 0 1 1 (1 - 1) ⟨0, some 1, some 0⟩).length = 1 ∨
      ∃ u rv, (GeodesicsCompact.tlTraj 0 1 1 (1 - 1)
          ⟨0, some 1, some 0⟩).getLast? = some u ∧ u.r = some rv ∧
        GeodesicsCompact.radicand 0 rv ≤ 0)) := by
  have hdom : ∀ u ∈ GeodesicsCompact.tlTraj 0 1 1 (1 - 1) ⟨0, some 1, some 0⟩,
      ∀ rv, u.r = some rv → 0 < 1 + rv := by
    intro u hu rv hrv
    have hu2 : u = ⟨0, some 1, some 0⟩ := by
      simpa [GeodesicsCompact.tlTraj] using hu
    subst hu2
    have : (1:ℝ) = rv := Option.some.inj hrv
    rw [← this]
    norm_num
  exact ⟨⟨le_refl 1, hdom⟩, C4_amended_truncation 1 0 1 1 1 (le_refl 1) hdom⟩

namespace Calibrated

/-- Earth radius constant `R_EARTH = 6.371e6` m. -/
def R_EARTH : ℝ := 6.371e6

end Calibrated

namespace Validator

/-! Embedding of `src/ssz_metric_pure/ssz_validator.py` (class
`SSZConsistencyValidator` over a `SSZCalibratedMetric`).  A Python result
dictionary is an association list of string keys and values; values are
strings, reals, booleans, or an extended real (the `float('inf')`-initialised
minimum tracker of the singularity check).  The wall-clock timestamp fields
are I/O and are not part of the model.  In exact real arithmetic every
computed component is a finite real, so `np.isfinite` checks are `true`. -/

/-- A value stored in a validator report record. -/
inductive VVal where
  | str : String → VVal
  | num : ℝ → VVal
  | boolean : Bool → VVal
  | ereal : EReal → VVal

/-- A report record: the association list of one test's result dictionary. -/
abbrev VRec := List (String × VVal)

/-- `np.diff`: consecutive differences. -/
def diffL (l : List ℝ) : List ℝ := (l.zip l.tail).map (fun p => p.2 - p.1)

/-- `np.max(np.abs(...))` over a list whose entries it is applied to here are
absolute values (all nonnegative), so a fold with neutral element 0 computes
the same maximum. -/
def maxAbs (l : List ℝ) : ℝ := (l.map (fun x => |x|)).foldl max 0

/-- `np.mean`. -/
def mean (l : List ℝ) : ℝ := l.sum / l.length

/-- `np.std` (population standard deviation). -/
def std (l : List ℝ) : ℝ :=
  Real.sqrt (mean (l.map (fun x => (x - mean l) ^ 2)))

/-- `test_metric_compatibility(r_test)` (keys as in the source; `threshold`
present). -/
def test_metric_compatibility (mass : ℝ) (r_test : List ℝ) : VRec :=
  let max_error := r_test.foldl (fun acc r =>
    if r < Calibrated.r_min mass then acc
    else
      let dr := 1e-6 * r
      let g_minus := Calibrated.metric_diag mass (r - dr)
      let g_plus := Calibrated.metric_diag mass (r + dr)
      let dg_dr_TT := (g_plus.1 - g_minus.1) / (2 * dr)
      let dg_dr_rr := (g_plus.2 - g_minus.2) / (2 * dr)
      max acc ((|dg_dr_TT| + |dg_dr_rr|) / C_SI ^ 2)) 0
  [("test", VVal.str "Metric Compatibility (nabla_a g_bc)"),
   ("max_error", VVal.num max_error),
   ("threshold", VVal.num 1e-10),
   ("status", VVal.str (if max_error < 1e-10 then "✅ PASS" else "⚠️ WARNING")),
   ("description", VVal.str "Covariant derivative of metric tensor")]

/-- `test_smoothness(r_test)`: note the returned dictionary carries the two
jump measures but NO `threshold` key (the 1e-6 bound is only used inline for
the status). -/
def test_smoothness (mass : ℝ) (r_test : List ℝ) : VRec :=
  let phi_vals := r_test.map (Calibrated.phi_calibrated mass)
  let dphi := diffL phi_vals
  let dr := diffL r_test
  let dphi_dr := List.zipWith (fun a b => a / b) dphi dr
  let d2phi_dr2 := List.zipWith (fun a b => a / b) (diffL dphi_dr) dr.dropLast
  let max_jump_first := maxAbs (diffL dphi_dr)
  let max_jump_second := maxAbs (diffL d2phi_dr2)
  [("test", VVal.str "Smoothness (C^inf)"),
   ("max_jump_first_deriv", VVal.num max_jump_first),
   ("max_jump_second_deriv", VVal.num max_jump_second),
   ("status", VVal.str (if max_jump_first < 1e-6 then "✅ PASS" else "⚠️ WARNING")),
   ("description", VVal.str "Metric components are C^inf smooth")]

/-- `test_covariance()`. -/
def test_covariance (mass : ℝ) : VRec :=
  let r_test := 10 * Calibrated.r_g mass
  let beta := Calibrated.beta mass r_test
  let g_tt_original := -(C_SI ^ 2) * (1 - beta ^ 2)
  let g_TT_diagonal := (Calibrated.metric_diag mass r_test).1
  let diff := |g_tt_original - g_TT_diagonal| / |g_tt_original|
  [("test", VVal.str "Covariance (t,r) <-> (T,r)"),
   ("g_tt_original", VVal.num g_tt_original),
   ("g_TT_diagonal", VVal.num g_TT_diagonal),
   ("relative_difference", VVal.num diff),
   ("threshold", VVal.num 1e-12),
   ("status", VVal.str (if diff < 1e-12 then "✅ PASS" else "❌ FAIL")),
   ("description", VVal.str "Coordinate transformation preserves physical content")]

/-- `test_energy_conservation(r_path)`. -/
def test_energy_conservation (mass : ℝ) (r_path : List ℝ) : VRec :=
  let E_proxy := r_path.map (fun r => C_SI ^ 2 / Calibrated.gamma mass r ^ 2)
  let E_var := std E_proxy / mean E_proxy
  [("test", VVal.str "Energy Conservation"),
   ("energy_variation", VVal.num E_var),
   ("threshold", VVal.num 0.1),
   ("status", VVal.str (if E_var < 0.1 then "✅ PASS" else "⚠️ WARNING")),
   ("description", VVal.str "Energy E = c^2/gamma^2 conserved along geodesics")]

/-- `test_causality(r_test)`: carries `max_velocity`, `speed_of_light` and
`violation` but NO `threshold` key. -/
def test_causality (mass : ℝ) (r_test : List ℝ) : VRec :=
  let max_velocity := r_test.foldl (fun acc r =>
    if r < Calibrated.r_min mass then acc
    else max acc |Calibrated.null_slope mass r true|) 0
  let violation := max 0 (max_velocity - C_SI)
  [("test", VVal.str "Causality (|dr/dT| <= c)"),
   ("max_velocity", VVal.num max_velocity),
   ("speed_of_light", VVal.num C_SI),
   ("violation", VVal.num violation),
   ("status", VVal.str (if violation = 0 then "✅ PASS" else "❌ FAIL")),
   ("description", VVal.str "Light propagation respects causality")]

/-- `test_asymptotic_flatness()`. -/
def test_asymptotic_flatness (mass : ℝ) : VRec :=
  let r_test := 1e6 * Calibrated.r_g mass
  let error_g_TT := |(Calibrated.metric_diag mass r_test).1 / C_SI ^ 2 + 1|
  let error_g_rr := |(Calibrated.metric_diag mass r_test).2 - 1|
  let max_error := max error_g_TT error_g_rr
  [("test", VVal.str "Asymptotic Flatness"),
   ("r_test", VVal.num r_test),
   ("error_g_TT", VVal.num error_g_TT),
   ("error_g_rr", VVal.num error_g_rr),
   ("max_error", VVal.num max_error),
   ("threshold", VVal.num 1e-5),
   ("status", VVal.str (if max_error < 1e-5 then "✅ PASS" else "⚠️ WARNING")),
   ("description", VVal.str "Metric approaches Minkowski for r >> r_g")]

/-- `test_singularity_free(r_test)`: carries the tracked extrema and the
finiteness flag, but NO `threshold` key.  Over exact reals the tracked maxima
are finite, so the `np.isfinite` conjunction is `true`. -/
def test_singularity_free (mass : ℝ) (r_test : List ℝ) : VRec :=
  let max_g_TT := r_test.foldl (fun acc r =>
    if r < 0.1 * Calibrated.r_g mass then max acc |(Calibrated.metric_diag mass r).1|
    else acc) 0
  let max_g_rr := r_test.foldl (fun acc r =>
    if r < 0.1 * Calibrated.r_g mass then max acc |(Calibrated.metric_diag mass r).2|
    else acc) 0
  let min_r : EReal := r_test.foldl (fun acc r =>
    if r < 0.1 * Calibrated.r_g mass then min acc (r : EReal) else acc) ⊤
  let is_finite := true
  [("test", VVal.str "Singularity-Free"),
   ("min_r_tested", VVal.ereal min_r),
   ("max_g_TT", VVal.num max_g_TT),
   ("max_g_rr", VVal.num max_g_rr),
   ("is_finite", VVal.boolean is_finite),
   ("status", VVal.str (if is_finite then "✅ PASS" else "❌ FAIL")),
   ("description", VVal.str "No divergences at small r")]

/-- `test_gps_agreement()`. -/
def test_gps_agreement (mass : ℝ) : VRec :=
  let r1 := Calibrated.R_EARTH
  let r2 := Calibrated.R_EARTH + 20200e3
  let z_gr := Calibrated.gr_redshift_weak mass r1 r2
  let z_ssz := Calibrated.redshift_factor mass r1 r2 - 1
  let rel_error := |z_ssz - z_gr| / |z_gr|
  [("test", VVal.str "GPS Gravitational Redshift"),
   ("z_GR", VVal.num z_gr),
   ("z_SSZ", VVal.num z_ssz),
   ("relative_error", VVal.num rel_error),
   ("threshold", VVal.num 1e-3),
   ("status", VVal.str (if rel_error < 1e-3 then "✅ PASS" else "❌ FAIL")),
   ("description", VVal.str "GPS satellite redshift matches GR")]

/-- `test_weak_field_limit()`. -/
def test_weak_field_limit (mass : ℝ) : VRec :=
  let r_test := 10 * Calibrated.r_g mass
  let dilation_ssz := Calibrated.time_dilation mass r_test
  let dilation_gr := Calibrated.gr_time_dilation_weak mass r_test
  let rel_error := |dilation_ssz - dilation_gr| / |dilation_gr|
  [("test", VVal.str "Weak-Field GR Limit"),
   ("r_test", VVal.num r_test),
   ("dilation_SSZ", VVal.num dilation_ssz),
   ("dilation_GR", VVal.num dilation_gr),
   ("relative_error", VVal.num rel_error),
   ("threshold", VVal.num 1e-2),
   ("status", VVal.str (if rel_error < 1e-2 then "✅ PASS" else "⚠️ WARNING")),
   ("description", VVal.str "Time dilation matches GR for r >> r_g")]

/-- Whether a record's status is the passing one (the source tests
`'✅' in r['status']`, which on the three literal statuses is equivalent to
equality with `"✅ PASS"`). -/
def isPass (rec : VRec) : Bool :=
  match rec.lookup "status" with
  | some (VVal.str s) => s == "✅ PASS"
  | _ => false

/-- `run_all_tests()`: runs all nine checks unconditionally in straight-line
order (no check can abort the batch: a failing check only sets its status
field) and returns the report including the appended `summary` record. -/
def run_all_tests (mass : ℝ) : List (String × VRec) :=
  let r_test_fine := PhiSpiral.linspace (0.5 * Calibrated.r_g mass)
    (100 * Calibrated.r_g mass) 1000
  let r_test_deep := PhiSpiral.linspace (0.1 * Calibrated.r_g mass)
    (10 * Calibrated.r_g mass) 500
  let results : List (String × VRec) :=
    [("metric_compatibility", test_metric_compatibility mass r_test_fine),
     ("smoothness", test_smoothness mass r_test_fine),
     ("covariance", test_covariance mass),
     ("energy_conservation", test_energy_conservation mass r_test_fine),
     ("causality", test_causality mass r_test_fine),
     ("asymptotic_flatness", test_asymptotic_flatness mass),
     ("singularity_free", test_singularity_free mass r_test_deep),
     ("gps_agreement", test_gps_agreement mass),
     ("weak_field_limit", test_weak_field_limit mass)]
  let passed := (results.filter (fun p => isPass p.2)).length
  results ++ [("summary",
    [("total_tests", VVal.num results.length),
     ("passed", VVal.num passed)])]

end Validator

/-- C7 counterexample: in the report of `run_all_tests` (here at the Earth
mass used by the module's demo), the `smoothness` record carries only the two
jump measures, a status and a description — it has NO `threshold` field, so
not every record carries a threshold as the claim states.  (`causality` and
`singularity_free` lack it too.) -/
theorem C7_counterexample :
    ((Validator.run_all_tests Calibrated.M_EARTH).getD 1 ("", [])).1 =
      "smoothness" ∧
    ((Validator.run_all_tests Calibrated.M_EARTH).getD 1 ("", [])).2.map
        Prod.fst =
      ["test", "max_jump_first_deriv", "max_jump_second_deriv", "status",
        "description"] ∧
    "threshold" ∉
      ((Validator.run_all_tests Calibrated.M_EARTH).getD 1 ("", [])).2.map
        Prod.fst := by
  refine ⟨?_, ?_, ?_⟩
  · simp [Validator.run_all_tests]
  · simp [Validator.run_all_tests, Validator.test_smoothness]
  · simp [Validator.run_all_tests, Validator.test_smoothness]

/-- C7 amended: `run_all_tests` always executes all nine named checks in
order and returns one record per check (plus the appended summary), whatever
the metric's mass and however many checks fail — a failing check only sets
its status string; every check record carries a test name, a pass/fail
status and a description, and six of the nine (`metric_compatibility`,
`covariance`, `energy_conservation`, `asymptotic_flatness`, `gps_agreement`,
`weak_field_limit`) additionally carry an explicit `threshold` field, while
`smoothness`, `causality` and `singularity_free` do not. -/
theorem C7_amended_all_checks_reported (mass : ℝ) :
    ((Validator.run_all_tests mass).map Prod.fst =
      ["metric_compatibility", "smoothness", "covariance",
       "energy_conservation", "causality", "asymptotic_flatness",
       "singularity_free", "gps_agreement", "weak_field_limit", "summary"]) ∧
    (∀ name rec, (name, rec) ∈ Validator.run_all_tests mass →
      name ≠ "summary" →
      ("test" ∈ rec.map Prod.fst ∧ "status" ∈ rec.map Prod.fst ∧
        "description" ∈ rec.map Prod.fst)) ∧
    (∀ name rec, (name, rec) ∈ Validator.run_all_tests mass →
      (name = "metric_compatibility" ∨ name = "covariance" ∨
        name = "energy_conservation" ∨ name = "asymptotic_flatness" ∨
        name = "gps_agreement" ∨ name = "weak_field_limit") →
      "threshold" ∈ rec.map Prod.fst) := by
  refine ⟨by simp [Validator.run_all_tests], ?_, ?_⟩
  · intro name rec hmem hne
    simp only [Validator.run_all_tests, List.cons_append, List.nil_append,
      List.mem_cons, List.not_mem_nil, or_false, Prod.mk.injEq] at hmem
    rcases hmem with h | h | h | h | h | h | h | h | h | h <;>
      obtain ⟨h1, h2⟩ := h <;> subst h1 <;> subst h2 <;>
      first
      | exact absurd rfl hne
      | simp [Validator.test_metric_compatibility, Validator.test_smoothness,
          Validator.test_covariance, Validator.test_energy_conservation,
          Validator.test_causality, Validator.test_asymptotic_flatness,
          Validator.test_singularity_free, Validator.test_gps_agreement,
          Validator.test_weak_field_limit]
  · intro name rec hmem hname
    simp only [Validator.run_all_tests, List.cons_append, List.nil_append,
      List.mem_cons, List.not_mem_nil, or_false, Prod.mk.injEq] at hmem
    rcases hmem with h | h | h | h | h | h | h | h | h | h <;>
      obtain ⟨h1, h2⟩ := h <;> subst h1 <;> subst h2 <;>
      first
      | (rcases hname with h | h | h | h | h | h <;> exact absurd h (by decide))
      | simp [Validator.test_metric_compatibility, Validator.test_covariance,
          Validator.test_energy_conservation, Validator.test_asymptotic_flatness,
          Validator.test_gps_agreement, Validator.test_weak_field_limit]

/-- Witness for the amended C7: the covariance record of the Earth report is
in the batch, is not the summary, and carries test, status, description and
threshold fields. -/
theorem C7_amended_witness :
    (("covariance", Validator.test_covariance Calibrated.M_EARTH) ∈
        Validator.run_all_tests Calibrated.M_EARTH ∧
      ("covariance" : String) ≠ "summary") ∧
    ("test" ∈ (Validator.test_covariance Calibrated.M_EARTH).map Prod.fst ∧
      "status" ∈ (Validator.test_covariance Calibrated.M_EARTH).map Prod.fst ∧
      "description" ∈
        (Validator.test_covariance Calibrated.M_EARTH).map Prod.fst) ∧
    "threshold" ∈ (Validator.test_covariance Calibrated.M_EARTH).map Prod.fst := by
  have hmem : ("covariance", Validator.test_covariance Calibrated.M_EARTH) ∈
      Validator.run_all_tests Calibrated.M_EARTH := by
    simp [Validator.run_all_tests]
  have hne : ("covariance" : String) ≠ "summary" := by decide
  obtain ⟨-, h2, h3⟩ := C7_amended_all_checks_reported Calibrated.M_EARTH
  exact ⟨⟨hmem, hne⟩, h2 _ _ hmem hne, h3 _ _ hmem (Or.inr (Or.inl rfl))⟩
